import Mathlib

/-!
Shallow embedding of the reina buffer-pool core (src/buffer.rs, src/disk.rs).

The Rust sources are translated as follows:
* `PageId` (a `u64` newtype) becomes `Nat`; no claim approaches `2^64`, and the
  only arithmetic on counters is `+ 1` / `- 1` guarded by a zero test, so the
  `u64` wrap can never fire on the paths the claims talk about.
* `BufferFrame` is an `Arc<InnerBufferFrame>`; a handle is modelled as a plain
  record.  Two extra fields embed the heap facts the code reads through the
  `Arc`: `stamp` is the identity of the underlying allocation (fresh per
  `BufferFrame::new`), and `extRefs` is the number of references held outside
  the pool at the instant an operation runs (so `is_unique`, i.e.
  `Arc::strong_count == 1 && Arc::weak_count == 0` seen from the pool's own
  handle, is `extRefs = 0`).  Handle creation and destruction by callers are
  environment events, so `extRefs` is simply part of the state an operation is
  run on.
* The `HashMap<PageId, usize>` index is an association list with the
  `HashMap` operations (`get`, `insert` replacing, `remove`).
* `Vec<(u64, BufferFrame)>` is a `List (Nat × BufferFrame)`; `Vec::with_capacity`
  is modelled as reserving exactly the requested capacity (the `capacity`
  field), which is what `ClockSweep::push`'s `len < capacity` test relies on.
* Operations that can hit a Rust panic (`self.frames[i]` out of bounds,
  `Option::unwrap`) return `Option`, `none` marking the panic.
* The CLOCK sweep loop is a fueled structural recursion; `push` runs it with
  fuel large enough that exhaustion is provably unreachable on well-formed
  states (`none` then only marks the out-of-bounds panic).
-/

abbrev PageId := Nat

abbrev IOErr := Nat

/-- Model of `BufferFrame`: a reference-counted handle to an
`InnerBufferFrame { page_id, page: RefCell<Page>, is_dirty: Cell<bool> }`.
`stamp` identifies the underlying allocation; `extRefs` counts the references
held outside the pool at the moment an operation is run. -/
structure BufferFrame where
  stamp : Nat
  page_id : PageId
  page : List Nat
  is_dirty : Bool
  extRefs : Nat
deriving Repr, DecidableEq

/-- Model of `BufferFrame::new`: fresh allocation, clean page, sole handle. -/
def BufferFrame.new (stamp : Nat) (page_id : PageId) (page : List Nat) : BufferFrame :=
  { stamp := stamp, page_id := page_id, page := page, is_dirty := false, extRefs := 0 }

/-- Model of `BufferFrame::is_unique`:
`Arc::strong_count(&self.inner) == 1 && Arc::weak_count(&self.inner) == 0`. -/
def BufferFrame.is_unique (f : BufferFrame) : Bool :=
  f.extRefs = 0

/-- Model of `ClockSweepError` (`Success` is how the source reports an
insertion that evicted nothing; `PoolIsFull` is the failure). -/
inductive ClockSweepError where
  | Success : ClockSweepError
  | PoolIsFull : ClockSweepError
deriving Repr, DecidableEq

/-- Model of `HashMap::get` on the index map. -/
def mlookup : List (PageId × Nat) → PageId → Option Nat
  | [], _ => none
  | (k, v) :: rest, p => if k = p then some v else mlookup rest p

/-- Model of `HashMap::remove` on the index map (drops every binding of the
key; on the no-duplicate-key maps the pool builds this is the single one). -/
def merase : List (PageId × Nat) → PageId → List (PageId × Nat)
  | [], _ => []
  | (k, v) :: rest, p => if k = p then merase rest p else (k, v) :: merase rest p

/-- Model of `HashMap::insert` (replaces any existing binding of the key). -/
def minsert (m : List (PageId × Nat)) (k : PageId) (v : Nat) : List (PageId × Nat) :=
  (k, v) :: merase m k

/-- Model of the `ClockSweep` policy state.  `capacity` is the fixed
allocation made by `Vec::with_capacity` in `ClockSweep::new`. -/
structure ClockSweep where
  capacity : Nat
  clock_hand : Nat
  frames : List (Nat × BufferFrame)
  map : List (PageId × Nat)
deriving Repr, DecidableEq

/-- Model of `<ClockSweep as PoolAlgorithm>::new`. -/
def ClockSweep.new (size_hint : Option Nat) : ClockSweep :=
  { capacity := size_hint.getD 1024, clock_hand := 0, frames := [], map := [] }

/-- Model of `<ClockSweep as PoolAlgorithm>::request`.  `none` is the panic of
`self.frames[index]` when the map holds a stale index (unreachable on
well-formed states). -/
def ClockSweep.request (c : ClockSweep) (page_id : PageId) :
    Option (ClockSweep × Option BufferFrame) :=
  match mlookup c.map page_id with
  | none => some (c, none)
  | some index =>
    match c.frames[index]? with
    | none => none
    | some (counter, frame) =>
      some ({ c with frames := c.frames.set index (counter + 1, frame) }, some frame)

/-- Model of `<ClockSweep as PoolAlgorithm>::request_with_hint`. -/
def ClockSweep.request_with_hint (c : ClockSweep) (_hint : Unit) (page_id : PageId) :
    Option (ClockSweep × Option BufferFrame) :=
  c.request page_id

/-- Result of the victim-selection loop in `ClockSweep::push`: either the
`break (buf_idx, remove_page_id)` together with the swept frames and the final
clock hand, or the early `return Err(PoolIsFull)`. -/
inductive SweepResult where
  | found : List (Nat × BufferFrame) → Nat → PageId → SweepResult
  | full : List (Nat × BufferFrame) → Nat → SweepResult
deriving Repr, DecidableEq

/-- The victim-selection `loop` of `ClockSweep::push`, one constructor
application per iteration.  `fuel` bounds the iterations; `none` is either
fuel exhaustion (proved unreachable for the fuel `push` supplies) or the
panic of `self.frames[self.clock_hand]` going out of bounds. -/
def sweepGo : Nat → List (Nat × BufferFrame) → Nat → Nat → Option SweepResult
  | 0, _, _, _ => none
  | fuel + 1, frames, hand, fail =>
    match frames[hand]? with
    | none => none
    | some (counter, frame) =>
      if counter = 0 then
        some (SweepResult.found frames hand frame.page_id)
      else if frame.is_unique then
        sweepGo fuel (frames.set hand (counter - 1, frame)) ((hand + 1) % frames.length) 0
      else if frames.length ≤ fail + 1 then
        some (SweepResult.full frames hand)
      else
        sweepGo fuel frames ((hand + 1) % frames.length) (fail + 1)

/-- Fuel with which `push` runs the sweep; proved sufficient on well-formed
states (each decrement lowers the counter sum, and between decrements at most
`length` fail steps can happen). -/
def sweepFuel (frames : List (Nat × BufferFrame)) : Nat :=
  (frames.map (fun cf => cf.1)).sum * (frames.length + 1) + frames.length + 1

/-- Model of `<ClockSweep as PoolAlgorithm>::push`.  The free-capacity branch
appends and reports `Err(Success)`; otherwise the sweep either finds a victim
(whose map entry is removed, slot replaced by `(0, frame)`, and the new page
inserted at the `break` index) or reports `Err(PoolIsFull)` with the swept
state.  `none` is a panic (`unwrap` of a missing map entry or an
out-of-bounds index), unreachable on well-formed states. -/
def ClockSweep.push (c : ClockSweep) (page_id : PageId) (frame : BufferFrame) :
    Option (ClockSweep × Except ClockSweepError (PageId × BufferFrame)) :=
  if c.frames.length < c.capacity then
    some ({ c with
              frames := c.frames ++ [(0, frame)]
              map := minsert c.map page_id c.frames.length },
          Except.error ClockSweepError.Success)
  else
    match sweepGo (sweepFuel c.frames) c.frames c.clock_hand 0 with
    | none => none
    | some (SweepResult.full frames2 hand2) =>
      some ({ c with
                frames := frames2
                clock_hand := hand2 },
            Except.error ClockSweepError.PoolIsFull)
    | some (SweepResult.found frames2 hand2 victim_pid) =>
      match mlookup c.map victim_pid with
      | none => none
      | some old_idx =>
        match frames2[old_idx]? with
        | none => none
        | some (_, old_frame) =>
          some ({ c with
                    frames := frames2.set old_idx (0, frame)
                    clock_hand := hand2
                    map := minsert (merase c.map victim_pid) page_id hand2 },
                Except.ok (victim_pid, old_frame))

/-- Model of `DiskManager` (src/disk.rs) together with the I/O environment:
`file` gives the byte stored at each offset of the heap file (0 for
never-written offsets, matching the zero-extension of `pread` past EOF into a
pre-zeroed buffer), and `readErr`/`writeErr` are oracles injecting the
`std::io::Error` outcomes the underlying `pread`/`pwrite` may produce. -/
structure DiskManager where
  page_size : Nat
  file : Nat → Nat
  readErr : PageId → Option IOErr
  writeErr : PageId → Option IOErr

/-- The bytes a successful read of length `len` at offset
`page_size * page_id` yields (never-written offsets read as zero-extended,
i.e. whatever `file` holds, 0 by convention of the modelled heap file). -/
def readBytes (d : DiskManager) (page_id : PageId) (len : Nat) : List Nat :=
  (List.range len).map (fun j => d.file (d.page_size * page_id + j))

/-- Model of `DiskManager::read_page` filling a buffer of length `len` from
offset `page_size * page_id`. -/
def DiskManager.read_page (d : DiskManager) (page_id : PageId) (len : Nat) :
    Except IOErr (List Nat) :=
  match d.readErr page_id with
  | some e => Except.error e
  | none => Except.ok (readBytes d page_id len)

/-- Model of `DiskManager::write_page` writing `data` at offset
`page_size * page_id`. -/
def DiskManager.write_page (d : DiskManager) (page_id : PageId) (data : List Nat) :
    Except IOErr DiskManager :=
  match d.writeErr page_id with
  | some e => Except.error e
  | none => Except.ok { d with
      file := fun o =>
        if d.page_size * page_id ≤ o ∧ o < d.page_size * page_id + data.length then
          data.getD (o - d.page_size * page_id) 0
        else d.file o }

/-- Model of `BufferPoolManager<ClockSweep>`.  `next_stamp` is the allocation
clock of the identity embedding: each `BufferFrame::new` performed by
`fetch_page` yields a frame whose `stamp` is the current value, so distinct
allocations get distinct stamps. -/
structure BufferPoolManager where
  disk_manager : DiskManager
  pool : ClockSweep
  next_stamp : Nat

/-- Model of `BufferPoolManager::new`. -/
def BufferPoolManager.new (d : DiskManager) (pool_size : Nat) : BufferPoolManager :=
  { disk_manager := d, pool := ClockSweep.new (some pool_size), next_stamp := 0 }

/-- Model of `BufferPoolManager::fetch_page`.  `none` is a panic inside the
policy (unreachable on well-formed states); `Except.error` is the propagated
`std::io::Error`.  Note the faithful quirks: a `push` that returns
`Err(PoolIsFull)` is ignored (`if let Ok(..)` with a `Todo` comment in the
source) and the function still returns `Ok(frame)`, and the victim write-back
runs after `push` has already mutated the pool. -/
def BufferPoolManager.fetch_page (m : BufferPoolManager) (page_id : PageId) :
    Option (BufferPoolManager × Except IOErr BufferFrame) :=
  match m.pool.request page_id with
  | none => none
  | some (pool1, some frame) => some ({ m with pool := pool1 }, Except.ok frame)
  | some (pool1, none) =>
    match m.disk_manager.read_page page_id m.disk_manager.page_size with
    | Except.error e => some ({ m with pool := pool1 }, Except.error e)
    | Except.ok page_data =>
      let frame := BufferFrame.new m.next_stamp page_id page_data
      match pool1.push page_id frame with
      | none => none
      | some (pool2, Except.error _) =>
        some ({ m with
                  pool := pool2
                  next_stamp := m.next_stamp + 1 }, Except.ok frame)
      | some (pool2, Except.ok (old_page_id, old_frame)) =>
        if old_frame.is_dirty then
          match m.disk_manager.write_page old_page_id old_frame.page with
          | Except.error e =>
            some ({ m with
                      pool := pool2
                      next_stamp := m.next_stamp + 1 }, Except.error e)
          | Except.ok d2 =>
            some ({ m with
                      disk_manager := d2
                      pool := pool2
                      next_stamp := m.next_stamp + 1 }, Except.ok frame)
        else
          some ({ m with
                    pool := pool2
                    next_stamp := m.next_stamp + 1 }, Except.ok frame)

/-- Well-formedness of a `ClockSweep` state: positive capacity, hand in
range, no more slots than capacity, the index map bijective with the slots
(map size equals slot count, every map entry points at a slot holding that
page, every slot is registered in the map at its own index), and no
duplicate keys.  These hold for every pool reachable through the public
operations and are what the source's `unwrap`/indexing implicitly rely on. -/
def WF (c : ClockSweep) : Prop :=
  0 < c.capacity ∧
  c.clock_hand < c.capacity ∧
  c.frames.length ≤ c.capacity ∧
  c.map.length = c.frames.length ∧
  (c.map.map Prod.fst).Nodup ∧
  (∀ e ∈ c.map, c.frames[e.2]?.map (fun cf => cf.2.page_id) = some e.1) ∧
  (∀ i, i < c.frames.length →
    c.frames[i]?.map (fun cf => mlookup c.map cf.2.page_id) = some (some i))

instance (c : ClockSweep) : Decidable (WF c) := by
  unfold WF
  infer_instance

theorem mlookup_merase_self (m : List (PageId × Nat)) (k : PageId) :
    mlookup (merase m k) k = none := by
  induction m with
  | nil => rfl
  | cons e rest ih =>
    obtain ⟨k1, v1⟩ := e
    by_cases h : k1 = k
    · simp [merase, h, ih]
    · simp [merase, mlookup, h, ih]

theorem merase_eq_filter (m : List (PageId × Nat)) (k : PageId) :
    merase m k = m.filter (fun e => decide (e.1 ≠ k)) := by
  induction m with
  | nil => rfl
  | cons e rest ih =>
    obtain ⟨k1, v1⟩ := e
    by_cases h1 : k1 = k
    · simp [merase, h1, ih, List.filter]
    · simp [merase, h1, ih, List.filter]

theorem mlookup_merase_ne (m : List (PageId × Nat)) (k k2 : PageId) (h : k2 ≠ k) :
    mlookup (merase m k) k2 = mlookup m k2 := by
  induction m with
  | nil => rfl
  | cons e rest ih =>
    obtain ⟨k1, v1⟩ := e
    by_cases h1 : k1 = k
    · have h2 : k1 ≠ k2 := fun hh => h (hh ▸ h1)
      rw [merase, if_pos h1, ih, mlookup, if_neg h2]
    · by_cases h2 : k1 = k2
      · rw [merase, if_neg h1, mlookup, if_pos h2, mlookup, if_pos h2]
      · rw [merase, if_neg h1, mlookup, if_neg h2, ih, mlookup, if_neg h2]

theorem merase_of_not_mem (m : List (PageId × Nat)) (k : PageId)
    (h : mlookup m k = none) : merase m k = m := by
  induction m with
  | nil => rfl
  | cons e rest ih =>
    obtain ⟨k1, v1⟩ := e
    by_cases h1 : k1 = k
    · simp [mlookup, h1] at h
    · simp [mlookup, h1] at h
      simp [merase, h1, ih h]

theorem mlookup_mem (m : List (PageId × Nat)) (k : PageId) (v : Nat)
    (h : mlookup m k = some v) : (k, v) ∈ m := by
  induction m with
  | nil => simp [mlookup] at h
  | cons e rest ih =>
    obtain ⟨k1, v1⟩ := e
    by_cases h1 : k1 = k
    · simp [mlookup, h1] at h
      simp [h1, h]
    · simp [mlookup, h1] at h
      exact List.mem_cons_of_mem _ (ih h)

theorem mlookup_eq_none_iff (m : List (PageId × Nat)) (k : PageId) :
    mlookup m k = none ↔ k ∉ m.map Prod.fst := by
  induction m with
  | nil => simp [mlookup]
  | cons e rest ih =>
    obtain ⟨k1, v1⟩ := e
    by_cases h1 : k1 = k
    · simp [mlookup, h1]
    · simp [mlookup, h1, ih, Ne.symm h1]

theorem length_merase_of_mem (m : List (PageId × Nat)) (k : PageId) (v : Nat)
    (hnd : (m.map Prod.fst).Nodup) (h : mlookup m k = some v) :
    (merase m k).length + 1 = m.length := by
  induction m with
  | nil => simp [mlookup] at h
  | cons e rest ih =>
    obtain ⟨k1, v1⟩ := e
    simp only [List.map_cons, List.nodup_cons] at hnd
    by_cases h1 : k1 = k
    · have : mlookup rest k = none := by
        rw [mlookup_eq_none_iff]
        exact h1 ▸ hnd.1
      simp [merase, h1, merase_of_not_mem rest k this]
    · simp [mlookup, h1] at h
      simp [merase, h1, ih hnd.2 h]

theorem merase_sublist (m : List (PageId × Nat)) (k : PageId) :
    (merase m k).Sublist m := by
  rw [merase_eq_filter]
  exact List.filter_sublist m

theorem nodup_keys_merase (m : List (PageId × Nat)) (k : PageId)
    (hnd : (m.map Prod.fst).Nodup) : ((merase m k).map Prod.fst).Nodup :=
  hnd.sublist ((merase_sublist m k).map Prod.fst)

theorem mlookup_minsert_self (m : List (PageId × Nat)) (k : PageId) (v : Nat) :
    mlookup (minsert m k v) k = some v := by
  simp [minsert, mlookup]

theorem mlookup_minsert_ne (m : List (PageId × Nat)) (k k2 : PageId) (v : Nat)
    (h : k2 ≠ k) : mlookup (minsert m k v) k2 = mlookup m k2 := by
  simp [minsert, mlookup, Ne.symm h, mlookup_merase_ne m k k2 h]

theorem nodup_keys_minsert (m : List (PageId × Nat)) (k : PageId) (v : Nat)
    (hnd : (m.map Prod.fst).Nodup) : ((minsert m k v).map Prod.fst).Nodup := by
  simp only [minsert, List.map_cons, List.nodup_cons]
  refine ⟨fun hmem => ?_, nodup_keys_merase m k hnd⟩
  exact (mlookup_eq_none_iff (merase m k) k).mp (mlookup_merase_self m k) hmem

/-- Total use-counter mass of the slots, the quantity each sweep decrement
lowers by one. -/
def countersSum (frames : List (Nat × BufferFrame)) : Nat :=
  (frames.map (fun cf => cf.1)).sum

theorem countersSum_set (frames : List (Nat × BufferFrame)) :
    ∀ (i : Nat) (c counter : Nat) (f g : BufferFrame),
    frames[i]? = some (counter, f) →
    countersSum (frames.set i (c, g)) + counter = countersSum frames + c := by
  induction frames with
  | nil => intro i c counter f g h; simp at h
  | cons e rest ih =>
    intro i c counter f g h
    cases i with
    | zero =>
      simp at h
      simp [countersSum, List.set, h]
      omega
    | succ j =>
      simp at h
      have := ih j c counter f g h
      simp [countersSum, List.set] at this ⊢
      omega

theorem counter_le_countersSum (frames : List (Nat × BufferFrame)) (i : Nat)
    (counter : Nat) (f : BufferFrame) (h : frames[i]? = some (counter, f)) :
    counter ≤ countersSum frames := by
  have hmem : (counter, f) ∈ frames := List.getElem?_mem h
  have : counter ∈ frames.map (fun cf => cf.1) := by
    exact List.mem_map.mpr ⟨(counter, f), hmem, rfl⟩
  exact List.single_le_sum (fun x _ => Nat.zero_le x) _ this

theorem lt_length_of_getElem? {α : Type} (l : List α) (i : Nat) (a : α)
    (h : l[i]? = some a) : i < l.length := by
  by_contra hge
  rw [List.getElem?_eq_none (Nat.le_of_not_lt hge)] at h
  cases h


/-- The frame list a sweep result carries (the mutated `self.frames`). -/
def SweepResult.framesOf : SweepResult → List (Nat × BufferFrame)
  | SweepResult.found f _ _ => f
  | SweepResult.full f _ => f

/-- The clock hand a sweep result carries (the final `self.clock_hand`). -/
def SweepResult.handOf : SweepResult → Nat
  | SweepResult.found _ h _ => h
  | SweepResult.full _ h => h

/-- What a completed sweep leaves behind: the slot frames and their order are
untouched (only counters change), externally referenced slots keep their
counters exactly (the decrement path is guarded by `is_unique`), the final
hand is in range, and a found victim slot holds counter 0 with the reported
page id. -/
theorem sweepGo_some_inv :
    ∀ (fuel : Nat) (frames : List (Nat × BufferFrame)) (hand fail : Nat) (r : SweepResult),
    sweepGo fuel frames hand fail = some r →
    r.framesOf.length = frames.length ∧
    (∀ (i : Nat), r.framesOf[i]?.map Prod.snd = frames[i]?.map Prod.snd) ∧
    (∀ (i : Nat) (cf cf2 : Nat × BufferFrame), frames[i]? = some cf →
      r.framesOf[i]? = some cf2 → 0 < cf.2.extRefs → cf2.1 = cf.1) ∧
    r.handOf < frames.length ∧
    (∀ (frames2 : List (Nat × BufferFrame)) (hand2 : Nat) (vpid : PageId),
      r = SweepResult.found frames2 hand2 vpid →
      ∃ vf, frames2[hand2]? = some (0, vf) ∧ vf.page_id = vpid) := by
  intro fuel
  induction fuel with
  | zero =>
    intro frames hand fail r h
    simp [sweepGo] at h
  | succ fuel ih =>
    intro frames hand fail r h
    rw [sweepGo] at h
    cases hg : frames[hand]? with
    | none =>
      rw [hg] at h
      exact Option.noConfusion h
    | some cf =>
      obtain ⟨counter, frame⟩ := cf
      rw [hg] at h
      simp only [] at h
      have hhand : hand < frames.length := lt_length_of_getElem? _ _ _ hg
      by_cases hc : counter = 0
      · rw [if_pos hc] at h
        injection h with h
        subst h
        refine ⟨rfl, fun i => rfl, ?_, hhand, ?_⟩
        · intro i cf cf2 h1 h2 _
          simp only [SweepResult.framesOf] at h2
          rw [h1] at h2
          cases h2
          rfl
        · intro frames2 hand2 vpid hEq
          cases hEq
          exact ⟨frame, by rw [hg, hc], rfl⟩
      · rw [if_neg hc] at h
        by_cases hu : frame.is_unique
        · rw [if_pos hu] at h
          obtain ⟨hlen, hsnd, hcnt, hhand2, hvict⟩ := ih _ _ _ _ h
          have hlset : (frames.set hand (counter - 1, frame)).length = frames.length := by
            simp
          refine ⟨hlen.trans hlset, ?_, ?_, hlset ▸ hhand2, hvict⟩
          · intro i
            rw [hsnd i]
            by_cases hi : i = hand
            · subst hi
              rw [List.getElem?_set_eq_of_lt _ hhand, hg]
              rfl
            · rw [List.getElem?_set_ne (fun hh => hi hh.symm)]
          · intro i cf cf2 h1 h2 hext
            by_cases hi : i = hand
            · subst hi
              rw [hg] at h1
              cases h1
              exfalso
              have hz : frame.extRefs = 0 := by
                simpa [BufferFrame.is_unique] using hu
              rw [hz] at hext
              exact Nat.lt_irrefl 0 hext
            · refine hcnt i cf cf2 ?_ h2 hext
              rw [List.getElem?_set_ne (fun hh => hi hh.symm)]
              exact h1
        · rw [if_neg hu] at h
          by_cases hf : frames.length ≤ fail + 1
          · rw [if_pos hf] at h
            injection h with h
            subst h
            refine ⟨rfl, fun i => rfl, ?_, hhand, ?_⟩
            · intro i cf cf2 h1 h2 _
              simp only [SweepResult.framesOf] at h2
              rw [h1] at h2
              cases h2
              rfl
            · intro frames2 hand2 vpid hEq
              cases hEq
          · rw [if_neg hf] at h
            exact ih _ _ _ _ h

/-- On a pool where every slot is externally referenced and carries a nonzero
use counter, every sweep step takes the fail branch: after `length - fail`
iterations the sweep reports `PoolIsFull`, leaving the slots untouched and
the hand resting where the failure count reached `length` (it advanced
`length - fail - 1` times). -/
theorem sweepGo_all_pinned :
    ∀ (fuel : Nat) (frames : List (Nat × BufferFrame)) (hand fail : Nat),
    (∀ cf ∈ frames, 1 ≤ cf.1 ∧ 0 < cf.2.extRefs) →
    hand < frames.length → fail + 1 ≤ frames.length →
    frames.length - fail ≤ fuel →
    sweepGo fuel frames hand fail =
      some (SweepResult.full frames
        ((hand + (frames.length - fail - 1)) % frames.length)) := by
  intro fuel
  induction fuel with
  | zero =>
    intro frames hand fail _ _ hfail hfuel
    exfalso
    omega
  | succ fuel ih =>
    intro frames hand fail hpin hhand hfail hfuel
    obtain ⟨cf, hcf⟩ : ∃ cf, frames[hand]? = some cf :=
      ⟨frames[hand], List.getElem?_eq_getElem hhand⟩
    obtain ⟨counter, frame⟩ := cf
    obtain ⟨h1c, h1e⟩ := hpin _ (List.getElem?_mem hcf)
    have h1c2 : 1 ≤ counter := h1c
    have h1e2 : 0 < frame.extRefs := h1e
    have hc0 : ¬counter = 0 := by omega
    have huniq : ¬(frame.is_unique = true) := by
      simp only [BufferFrame.is_unique, decide_eq_true_eq]
      omega
    rw [sweepGo, hcf]
    simp only []
    rw [if_neg hc0, if_neg huniq]
    by_cases hf : frames.length ≤ fail + 1
    · rw [if_pos hf]
      have h0 : frames.length - fail - 1 = 0 := by omega
      rw [h0, Nat.add_zero, Nat.mod_eq_of_lt hhand]
    · rw [if_neg hf]
      have hL : 0 < frames.length := Nat.lt_of_le_of_lt (Nat.zero_le hand) hhand
      have hhand2 : (hand + 1) % frames.length < frames.length := Nat.mod_lt _ hL
      have hb1 : fail + 1 + 1 ≤ frames.length := by omega
      have hb2 : frames.length - (fail + 1) ≤ fuel := by omega
      rw [ih frames ((hand + 1) % frames.length) (fail + 1) hpin hhand2 hb1 hb2]
      have harith : ((hand + 1) % frames.length + (frames.length - (fail + 1) - 1)) %
          frames.length = (hand + (frames.length - fail - 1)) % frames.length := by
        rw [Nat.mod_add_mod]
        congr 1
        omega
      rw [harith]

/-- The fuel `push` passes to the sweep is enough: with measure
`countersSum * (length + 1) + (length - fail)` still below the remaining
fuel, the sweep completes (it never hits the fuel-exhaustion `none`). -/
theorem sweepGo_isSome :
    ∀ (fuel : Nat) (frames : List (Nat × BufferFrame)) (hand fail : Nat),
    hand < frames.length → fail < frames.length →
    countersSum frames * (frames.length + 1) + (frames.length - fail) ≤ fuel →
    (sweepGo fuel frames hand fail).isSome := by
  intro fuel
  induction fuel with
  | zero =>
    intro frames hand fail _ hfail hfuel
    exfalso
    omega
  | succ fuel ih =>
    intro frames hand fail hhand hfail hfuel
    obtain ⟨cf, hcf⟩ : ∃ cf, frames[hand]? = some cf :=
      ⟨frames[hand], List.getElem?_eq_getElem hhand⟩
    obtain ⟨counter, frame⟩ := cf
    have hL : 0 < frames.length := Nat.lt_of_le_of_lt (Nat.zero_le hand) hhand
    rw [sweepGo, hcf]
    simp only []
    by_cases hc : counter = 0
    · rw [if_pos hc]
      rfl
    · rw [if_neg hc]
      by_cases hu : frame.is_unique
      · rw [if_pos hu]
        have hsum := countersSum_set frames hand (counter - 1) counter frame frame hcf
        have hcle := counter_le_countersSum frames hand counter frame hcf
        have hlset : (frames.set hand (counter - 1, frame)).length = frames.length := by
          simp
        apply ih
        · rw [hlset]
          exact Nat.mod_lt _ hL
        · rw [hlset]
          exact hL
        · rw [hlset]
          have hexp : countersSum frames * (frames.length + 1) =
              (countersSum frames - 1) * (frames.length + 1) + (frames.length + 1) := by
            have h1 : 1 ≤ countersSum frames := by omega
            have h2 : countersSum frames = (countersSum frames - 1) + 1 := by omega
            calc countersSum frames * (frames.length + 1)
                = ((countersSum frames - 1) + 1) * (frames.length + 1) := by rw [← h2]
              _ = (countersSum frames - 1) * (frames.length + 1) + (frames.length + 1) :=
                Nat.succ_mul _ _
          have hdec : countersSum (frames.set hand (counter - 1, frame)) =
              countersSum frames - 1 := by omega
          rw [hdec]
          omega
      · rw [if_neg hu]
        by_cases hf : frames.length ≤ fail + 1
        · rw [if_pos hf]
          rfl
        · rw [if_neg hf]
          have hh2 : (hand + 1) % frames.length < frames.length := Nat.mod_lt _ hL
          have hb1 : fail + 1 < frames.length := by omega
          have hb2 : countersSum frames * (frames.length + 1) +
              (frames.length - (fail + 1)) ≤ fuel := by omega
          exact ih frames ((hand + 1) % frames.length) (fail + 1) hh2 hb1 hb2

/-- Canonical form of `push` on a pool with free capacity: append the new
slot with counter 0, record the page at the next free index, report
`Err(Success)`. -/
theorem ClockSweep.push_free (c : ClockSweep) (p : PageId) (f : BufferFrame)
    (hfree : c.frames.length < c.capacity) :
    c.push p f = some ({ c with
        frames := c.frames ++ [(0, f)]
        map := minsert c.map p c.frames.length },
      Except.error ClockSweepError.Success) := by
  rw [ClockSweep.push, if_pos hfree]

/-- Canonical form of `push` when it reports an eviction: the sweep found a
victim slot `v` (holding counter 0 and the evicted frame), the victim's page
is looked up in the map at `v`, the slot is overwritten with `(0, f)`, the
victim's map entry is removed, the new page is inserted at `v`, and the hand
stays at `v`. -/
theorem ClockSweep.push_evict (c : ClockSweep) (p : PageId) (f : BufferFrame)
    (c2 : ClockSweep) (q : PageId) (g : BufferFrame)
    (hwf : WF c) (h : c.push p f = some (c2, Except.ok (q, g))) :
    ∃ (v : Nat) (frames2 : List (Nat × BufferFrame)),
      sweepGo (sweepFuel c.frames) c.frames c.clock_hand 0 =
        some (SweepResult.found frames2 v q) ∧
      mlookup c.map q = some v ∧
      v < c.frames.length ∧
      frames2[v]? = some (0, g) ∧
      c2 = { c with
               frames := frames2.set v (0, f)
               clock_hand := v
               map := minsert (merase c.map q) p v } := by
  obtain ⟨hcap, hhand, hlen, hmlen, hnd, hfwd, hinv⟩ := hwf
  rw [ClockSweep.push] at h
  by_cases hfree : c.frames.length < c.capacity
  · rw [if_pos hfree] at h
    simp at h
  · rw [if_neg hfree] at h
    cases hsw : sweepGo (sweepFuel c.frames) c.frames c.clock_hand 0 with
    | none =>
      rw [hsw] at h
      simp at h
    | some r =>
      rw [hsw] at h
      cases r with
      | full frames2 hand2 =>
        simp only [] at h
        simp at h
      | found frames2 hand2 vpid =>
        simp only [] at h
        obtain ⟨hslen, hsnd, hcnt, hhand2, hvict⟩ :=
          sweepGo_some_inv _ _ _ _ _ hsw
        obtain ⟨vf, hvf, hvfpid⟩ := hvict frames2 hand2 vpid rfl
        simp only [SweepResult.framesOf, SweepResult.handOf] at hslen hsnd hcnt hhand2
        have hpidAt : c.frames[hand2]?.map (fun cf => cf.2.page_id) =
            some vf.page_id := by
          have h1 := hsnd hand2
          rw [hvf] at h1
          cases h2 : c.frames[hand2]? with
          | none => rw [h2] at h1; cases h1
          | some cf =>
            rw [h2] at h1
            injection h1 with h1
            have h1v : cf.2 = vf := h1.symm
            simp [h1v]
        have hreg := hinv hand2 hhand2
        have hlkv : mlookup c.map vpid = some hand2 := by
          cases h2 : c.frames[hand2]? with
          | none =>
            rw [h2] at hpidAt
            cases hpidAt
          | some cf =>
            rw [h2] at hpidAt hreg
            injection hpidAt with hpidAt
            injection hreg with hreg
            have hp2 : cf.2.page_id = vf.page_id := hpidAt
            rw [← hvfpid, ← hp2]
            exact hreg
        rw [hlkv] at h
        simp only [] at h
        rw [hvf] at h
        simp only [] at h
        simp only [Option.some.injEq, Prod.mk.injEq, Except.ok.injEq] at h
        obtain ⟨hc2, hq, hg⟩ := h
        subst hq
        subst hg
        exact ⟨hand2, frames2, rfl, hlkv, hhand2, hvf, hc2.symm⟩

/-- Canonical form of `push` on a full pool in which every resident frame is
externally referenced and carries a nonzero use counter: the push fails with
`PoolIsFull`, the slots and the map are untouched, and the clock hand has
advanced `N - 1` steps. -/
theorem ClockSweep.push_full_pinned (c : ClockSweep) (p : PageId) (f : BufferFrame)
    (hwf : WF c) (hfull : c.frames.length = c.capacity)
    (hpin : ∀ cf ∈ c.frames, 1 ≤ cf.1 ∧ 0 < cf.2.extRefs) :
    c.push p f = some ({ c with
        clock_hand := (c.clock_hand + (c.capacity - 1)) % c.capacity },
      Except.error ClockSweepError.PoolIsFull) := by
  obtain ⟨hcap, hhand, hlen, hmlen, hnd, hfwd, hinv⟩ := hwf
  have hhand2 : c.clock_hand < c.frames.length := by omega
  have hsw := sweepGo_all_pinned (sweepFuel c.frames) c.frames c.clock_hand 0
    hpin hhand2 (by omega) (by simp [sweepFuel]; omega)
  rw [ClockSweep.push, if_neg (by omega), hsw]
  simp only [Nat.sub_zero]
  rw [hfull]

/-- `request` on a page that is not resident returns `None` and leaves the
state untouched. -/
theorem ClockSweep.request_miss (c : ClockSweep) (p : PageId)
    (h : mlookup c.map p = none) : c.request p = some (c, none) := by
  rw [ClockSweep.request, h]

/-- `request` on a resident page bumps that slot's use counter by one and
returns a clone of the resident frame. -/
theorem ClockSweep.request_hit (c : ClockSweep) (p : PageId) (i cnt : Nat)
    (fr : BufferFrame) (hlk : mlookup c.map p = some i)
    (hfr : c.frames[i]? = some (cnt, fr)) :
    c.request p =
      some ({ c with frames := c.frames.set i (cnt + 1, fr) }, some fr) := by
  rw [ClockSweep.request, hlk]
  simp only []
  rw [hfr]

/-- Overwriting a slot's counter while keeping its frame preserves
well-formedness. -/
theorem WF_set_counter (c : ClockSweep) (i cnt cnt2 : Nat) (fr : BufferFrame)
    (hwf : WF c) (hfr : c.frames[i]? = some (cnt, fr)) :
    WF { c with frames := c.frames.set i (cnt2, fr) } := by
  obtain ⟨hcap, hhand, hlen, hmlen, hnd, hfwd, hinv⟩ := hwf
  have hi : i < c.frames.length := lt_length_of_getElem? _ _ _ hfr
  have hget : ∀ (j : Nat), (c.frames.set i (cnt2, fr))[j]?.map Prod.snd =
      c.frames[j]?.map Prod.snd := by
    intro j
    by_cases hj : j = i
    · subst hj
      rw [List.getElem?_set_eq_of_lt _ hi, hfr]
      rfl
    · rw [List.getElem?_set_ne (fun hh => hj hh.symm)]
  refine ⟨hcap, hhand, by simpa using hlen, by simpa using hmlen, hnd, ?_, ?_⟩
  · intro e he
    have h1 := hget e.2
    have h2 := hfwd e he
    cases h3 : c.frames[e.2]? with
    | none =>
      rw [h3] at h2
      cases h2
    | some cf =>
      rw [h3] at h1 h2
      cases h4 : (c.frames.set i (cnt2, fr))[e.2]? with
      | none => rw [h4] at h1; cases h1
      | some cf2 =>
        rw [h4] at h1
        injection h1 with h1
        injection h2 with h2
        simp only [Option.map_some', Option.some.injEq]
        have : cf2.2 = cf.2 := h1
        rw [this]
        exact h2
  · intro j hj
    simp only [List.length_set] at hj
    have h1 := hget j
    have h2 := hinv j hj
    cases h3 : c.frames[j]? with
    | none =>
      rw [h3] at h2
      cases h2
    | some cf =>
      rw [h3] at h1 h2
      cases h4 : (c.frames.set i (cnt2, fr))[j]? with
      | none => rw [h4] at h1; cases h1
      | some cf2 =>
        rw [h4] at h1
        injection h1 with h1
        injection h2 with h2
        simp only [Option.map_some', Option.some.injEq]
        have : cf2.2 = cf.2 := h1
        rw [this]
        exact h2

/-- On a well-formed pool, the page id a sweep reports for the found victim
is registered in the map exactly at the victim slot. -/
theorem sweepGo_found_reg (c : ClockSweep)
    (frames2 : List (Nat × BufferFrame)) (hand2 : Nat) (vpid : PageId)
    (hwf : WF c)
    (hsw : sweepGo (sweepFuel c.frames) c.frames c.clock_hand 0 =
      some (SweepResult.found frames2 hand2 vpid)) :
    mlookup c.map vpid = some hand2 ∧ hand2 < c.frames.length ∧
    ∃ vf, frames2[hand2]? = some (0, vf) ∧ vf.page_id = vpid := by
  obtain ⟨hcap, hhand, hlen, hmlen, hnd, hfwd, hinv⟩ := hwf
  obtain ⟨hslen, hsnd, hcnt, hhand2, hvict⟩ := sweepGo_some_inv _ _ _ _ _ hsw
  obtain ⟨vf, hvf, hvfpid⟩ := hvict frames2 hand2 vpid rfl
  simp only [SweepResult.framesOf, SweepResult.handOf] at hslen hsnd hcnt hhand2
  refine ⟨?_, hhand2, vf, hvf, hvfpid⟩
  have h1 := hsnd hand2
  rw [hvf] at h1
  have hreg := hinv hand2 hhand2
  cases h2 : c.frames[hand2]? with
  | none =>
    rw [h2] at h1
    cases h1
  | some cf =>
    rw [h2] at h1 hreg
    injection h1 with h1
    injection hreg with hreg
    have h1v : cf.2 = vf := h1.symm
    have hp2 : mlookup c.map cf.2.page_id = some hand2 := hreg
    rw [h1v, hvfpid] at hp2
    exact hp2

/-- Canonical form of `push` when the sweep finds a victim on a well-formed
full pool. -/
theorem ClockSweep.push_evict_form (c : ClockSweep) (p : PageId) (f : BufferFrame)
    (frames2 : List (Nat × BufferFrame)) (hand2 : Nat) (vpid : PageId)
    (vf : BufferFrame)
    (hfree : ¬c.frames.length < c.capacity)
    (hsw : sweepGo (sweepFuel c.frames) c.frames c.clock_hand 0 =
      some (SweepResult.found frames2 hand2 vpid))
    (hlkv : mlookup c.map vpid = some hand2)
    (hvf : frames2[hand2]? = some (0, vf)) :
    c.push p f = some ({ c with
        frames := frames2.set hand2 (0, f)
        clock_hand := hand2
        map := minsert (merase c.map vpid) p hand2 },
      Except.ok (vpid, vf)) := by
  rw [ClockSweep.push, if_neg hfree, hsw]
  simp only []
  rw [hlkv]
  simp only []
  rw [hvf]

theorem map_pid_eq_of_snd_eq (l1 l2 : List (Nat × BufferFrame)) (i : Nat)
    (h : l1[i]?.map Prod.snd = l2[i]?.map Prod.snd) :
    l1[i]?.map (fun cf => cf.2.page_id) = l2[i]?.map (fun cf => cf.2.page_id) := by
  cases h1 : l1[i]? with
  | none =>
    rw [h1] at h
    cases h2 : l2[i]? with
    | none => rfl
    | some cf2 => rw [h2] at h; cases h
  | some cf =>
    rw [h1] at h
    cases h2 : l2[i]? with
    | none => rw [h2] at h; cases h
    | some cf2 =>
      rw [h2] at h
      injection h with h
      have hv : cf.2 = cf2.2 := h
      simp [hv]

theorem minsert_of_fresh (m : List (PageId × Nat)) (k : PageId) (v : Nat)
    (h : mlookup m k = none) : minsert m k v = (k, v) :: m := by
  rw [minsert, merase_of_not_mem _ _ h]

theorem mem_of_mem_merase (m : List (PageId × Nat)) (k : PageId)
    (e : PageId × Nat) (h : e ∈ merase m k) : e ∈ m ∧ e.1 ≠ k := by
  rw [merase_eq_filter] at h
  have := List.mem_filter.mp h
  refine ⟨this.1, ?_⟩
  have h2 := this.2
  simpa using h2

/-- A free-capacity `push` preserves well-formedness. -/
theorem WF_after_append (c : ClockSweep) (p : PageId) (f : BufferFrame)
    (hwf : WF c) (hfree : c.frames.length < c.capacity)
    (hfresh : mlookup c.map p = none) (hfpid : f.page_id = p) :
    WF { c with
           frames := c.frames ++ [(0, f)]
           map := minsert c.map p c.frames.length } := by
  obtain ⟨hcap, hhand, hlen, hmlen, hnd, hfwd, hinv⟩ := hwf
  have hm : minsert c.map p c.frames.length = (p, c.frames.length) :: c.map :=
    minsert_of_fresh _ _ _ hfresh
  refine ⟨hcap, hhand, by simp; omega, ?_, ?_, ?_, ?_⟩
  · rw [hm]
    simp [hmlen]
  · rw [hm]
    simp only [List.map_cons, List.nodup_cons]
    exact ⟨(mlookup_eq_none_iff _ _).mp hfresh, hnd⟩
  · intro e he
    rw [hm] at he
    rcases List.mem_cons.mp he with he1 | he2
    · subst he1
      simp [hfpid]
    · have h2 := hfwd e he2
      cases h3 : c.frames[e.2]? with
      | none => rw [h3] at h2; cases h2
      | some cf =>
        have hilt : e.2 < c.frames.length := lt_length_of_getElem? _ _ _ h3
        rw [List.getElem?_append_left hilt, h3]
        rw [h3] at h2
        exact h2
  · intro i hi
    simp only [List.length_append, List.length_singleton] at hi
    by_cases hil : i < c.frames.length
    · have h2 := hinv i hil
      cases h3 : c.frames[i]? with
      | none => rw [h3] at h2; cases h2
      | some cf =>
        rw [List.getElem?_append_left hil, h3]
        rw [h3] at h2
        injection h2 with h2
        have h2v : mlookup c.map cf.2.page_id = some i := h2
        have hne : cf.2.page_id ≠ p := by
          intro hEq
          rw [hEq, hfresh] at h2v
          cases h2v
        simp only [Option.map_some', Option.some.injEq]
        show mlookup (minsert c.map p c.frames.length) cf.2.page_id = some i
        rw [hm, mlookup, if_neg (fun hh => hne hh.symm)]
        exact h2v
    · have hieq : i = c.frames.length := by omega
      subst hieq
      have hgot : (c.frames ++ [(0, f)])[c.frames.length]? = some (0, f) := by
        simp
      rw [hgot]
      simp only [Option.map_some', Option.some.injEq]
      show mlookup (minsert c.map p c.frames.length) f.page_id =
        some c.frames.length
      rw [hm, hfpid, mlookup, if_pos rfl]

/-- A `push` that fails with `PoolIsFull` preserves well-formedness. -/
theorem WF_after_sweep_full (c : ClockSweep)
    (frames2 : List (Nat × BufferFrame)) (hand2 : Nat) (hwf : WF c)
    (hsw : sweepGo (sweepFuel c.frames) c.frames c.clock_hand 0 =
      some (SweepResult.full frames2 hand2)) :
    WF { c with
           frames := frames2
           clock_hand := hand2 } := by
  obtain ⟨hcap, hhand, hlen, hmlen, hnd, hfwd, hinv⟩ := hwf
  obtain ⟨hslen, hsnd, hcnt, hhand2, _⟩ := sweepGo_some_inv _ _ _ _ _ hsw
  simp only [SweepResult.framesOf, SweepResult.handOf] at hslen hsnd hcnt hhand2
  refine ⟨hcap, ?_, ?_, ?_, hnd, ?_, ?_⟩
  · show hand2 < c.capacity
    omega
  · show frames2.length ≤ c.capacity
    omega
  · show c.map.length = frames2.length
    omega
  · intro e he
    have h2 := hfwd e he
    rw [map_pid_eq_of_snd_eq frames2 c.frames e.2 (hsnd e.2)]
    exact h2
  · intro i hi
    simp only [] at hi
    have hil : i < c.frames.length := by omega
    have h2 := hinv i hil
    have hpid := map_pid_eq_of_snd_eq frames2 c.frames i (hsnd i)
    cases h3 : c.frames[i]? with
    | none => rw [h3] at h2; cases h2
    | some cf =>
      rw [h3] at h2 hpid
      cases h4 : frames2[i]? with
      | none => rw [h4] at hpid; cases hpid
      | some cf2 =>
        rw [h4] at hpid
        injection hpid with hpid
        injection h2 with h2
        simp only [Option.map_some', Option.some.injEq]
        have hpv : cf2.2.page_id = cf.2.page_id := hpid
        show mlookup c.map cf2.2.page_id = some i
        rw [hpv]
        exact h2

/-- An evicting `push` with a fresh page id preserves well-formedness. -/
theorem WF_after_evict (c : ClockSweep) (p : PageId) (f : BufferFrame)
    (frames2 : List (Nat × BufferFrame)) (hand2 : Nat) (vpid : PageId)
    (hwf : WF c) (hfresh : mlookup c.map p = none) (hfpid : f.page_id = p)
    (hsw : sweepGo (sweepFuel c.frames) c.frames c.clock_hand 0 =
      some (SweepResult.found frames2 hand2 vpid)) :
    WF { c with
           frames := frames2.set hand2 (0, f)
           clock_hand := hand2
           map := minsert (merase c.map vpid) p hand2 } := by
  obtain ⟨hlkv, hhand2, vf, hvf, hvfpid⟩ := sweepGo_found_reg c frames2 hand2 vpid hwf hsw
  obtain ⟨hcap, hhand, hlen, hmlen, hnd, hfwd, hinv⟩ := hwf
  obtain ⟨hslen, hsnd, hcnt, _, _⟩ := sweepGo_some_inv _ _ _ _ _ hsw
  simp only [SweepResult.framesOf, SweepResult.handOf] at hslen hsnd hcnt
  have hpne : p ≠ vpid := by
    intro hEq
    rw [hEq, hlkv] at hfresh
    cases hfresh
  have hm : minsert (merase c.map vpid) p hand2 =
      (p, hand2) :: merase c.map vpid := by
    apply minsert_of_fresh
    rw [mlookup_merase_ne _ _ _ hpne]
    exact hfresh
  have hmlen2 : (merase c.map vpid).length + 1 = c.map.length :=
    length_merase_of_mem _ _ _ hnd hlkv
  have hh2f : hand2 < frames2.length := by omega
  have hvpidAt : c.frames[hand2]?.map (fun cf => cf.2.page_id) = some vpid := by
    rw [← map_pid_eq_of_snd_eq frames2 c.frames hand2 (hsnd hand2), hvf]
    simp [hvfpid]
  refine ⟨hcap, ?_, ?_, ?_, ?_, ?_, ?_⟩
  · show hand2 < c.capacity
    omega
  · show (frames2.set hand2 (0, f)).length ≤ c.capacity
    simp only [List.length_set]
    omega
  · show (minsert (merase c.map vpid) p hand2).length =
      (frames2.set hand2 (0, f)).length
    rw [hm]
    simp only [List.length_cons, List.length_set]
    omega
  · rw [hm]
    simp only [List.map_cons, List.nodup_cons]
    constructor
    · intro hmem
      have hl : mlookup (merase c.map vpid) p = none := by
        rw [mlookup_merase_ne _ _ _ hpne]
        exact hfresh
      exact (mlookup_eq_none_iff _ _).mp hl hmem
    · exact nodup_keys_merase _ _ hnd
  · intro e he
    rw [hm] at he
    rcases List.mem_cons.mp he with he1 | he2
    · subst he1
      rw [List.getElem?_set_eq_of_lt _ hh2f]
      simp [hfpid]
    · obtain ⟨hemem, hekey⟩ := mem_of_mem_merase _ _ _ he2
      have h2 := hfwd e hemem
      have hene : e.2 ≠ hand2 := by
        intro hEq
        rw [hEq] at h2
        rw [hvpidAt] at h2
        injection h2 with h2
        exact hekey h2.symm
      rw [List.getElem?_set_ne (fun hh => hene hh.symm)]
      rw [map_pid_eq_of_snd_eq frames2 c.frames e.2 (hsnd e.2)]
      exact h2
  · intro i hi
    simp only [List.length_set] at hi
    have hil : i < c.frames.length := by omega
    by_cases hih : i = hand2
    · subst hih
      rw [List.getElem?_set_eq_of_lt _ hh2f]
      simp only [Option.map_some', Option.some.injEq]
      show mlookup (minsert (merase c.map vpid) p i) f.page_id = some i
      rw [hm, hfpid, mlookup, if_pos rfl]
    · rw [List.getElem?_set_ne (fun hh => hih hh.symm)]
      have h2 := hinv i hil
      have hpid := map_pid_eq_of_snd_eq frames2 c.frames i (hsnd i)
      cases h3 : c.frames[i]? with
      | none => rw [h3] at h2; cases h2
      | some cf =>
        rw [h3] at h2 hpid
        cases h4 : frames2[i]? with
        | none => rw [h4] at hpid; cases hpid
        | some cf2 =>
          rw [h4] at hpid
          injection hpid with hpid
          injection h2 with h2
          have h2v : mlookup c.map cf.2.page_id = some i := h2
          have hpv : cf2.2.page_id = cf.2.page_id := hpid
          have hnp : cf.2.page_id ≠ p := by
            intro hEq
            rw [hEq, hfresh] at h2v
            cases h2v
          have hnv : cf.2.page_id ≠ vpid := by
            intro hEq
            rw [hEq, hlkv] at h2v
            injection h2v with h2v
            exact hih h2v.symm
          simp only [Option.map_some', Option.some.injEq]
          show mlookup (minsert (merase c.map vpid) p hand2) cf2.2.page_id =
            some i
          rw [hm, hpv, mlookup, if_neg (fun hh => hnp hh.symm),
            mlookup_merase_ne _ _ _ hnv]
          exact h2v

/-- On a well-formed pool, `request` never panics and the result is again
well-formed. -/
theorem ClockSweep.request_total_WF (c : ClockSweep) (p : PageId) (hwf : WF c) :
    ∃ c2 r, c.request p = some (c2, r) ∧ WF c2 ∧ c2.capacity = c.capacity := by
  cases hlk : mlookup c.map p with
  | none => exact ⟨c, none, c.request_miss p hlk, hwf, rfl⟩
  | some i =>
    have hfwd := hwf.2.2.2.2.2.1 (p, i) (mlookup_mem _ _ _ hlk)
    cases hfr : c.frames[i]? with
    | none =>
      rw [hfr] at hfwd
      cases hfwd
    | some cf =>
      obtain ⟨cnt, fr⟩ := cf
      exact ⟨_, _, c.request_hit p i cnt fr hlk hfr,
        WF_set_counter c i cnt (cnt + 1) fr hwf hfr, rfl⟩

/-- On a well-formed pool, a `push` with a fresh page id whose frame carries
that id never panics, and the resulting pool is again well-formed. -/
theorem ClockSweep.push_total_WF (c : ClockSweep) (p : PageId) (f : BufferFrame)
    (hwf : WF c) (hfresh : mlookup c.map p = none) (hfpid : f.page_id = p) :
    ∃ c2 r, c.push p f = some (c2, r) ∧ WF c2 ∧ c2.capacity = c.capacity := by
  by_cases hfree : c.frames.length < c.capacity
  · exact ⟨_, _, c.push_free p f hfree,
      WF_after_append c p f hwf hfree hfresh hfpid, rfl⟩
  · have hcap := hwf.1
    have hhand := hwf.2.1
    have hlen := hwf.2.2.1
    have hfull : c.frames.length = c.capacity := by omega
    have hIsSome := sweepGo_isSome (sweepFuel c.frames) c.frames c.clock_hand 0
      (by omega) (by omega) (by simp only [sweepFuel, countersSum]; omega)
    cases hsw : sweepGo (sweepFuel c.frames) c.frames c.clock_hand 0 with
    | none =>
      rw [hsw] at hIsSome
      cases hIsSome
    | some r =>
      cases r with
      | full frames2 hand2 =>
        refine ⟨_, Except.error ClockSweepError.PoolIsFull, ?_,
          WF_after_sweep_full c frames2 hand2 hwf hsw, rfl⟩
        rw [ClockSweep.push, if_neg hfree, hsw]
      | found frames2 hand2 vpid =>
        obtain ⟨hlkv, hhand2, vf, hvf, hvfpid⟩ :=
          sweepGo_found_reg c frames2 hand2 vpid hwf hsw
        exact ⟨_, _,
          c.push_evict_form p f frames2 hand2 vpid vf hfree hsw hlkv hvf,
          WF_after_evict c p f frames2 hand2 vpid hwf hfresh hfpid hsw, rfl⟩

/-- The operations of the policy interface a claim-level run may perform. -/
inductive PoolOp where
  | request : PageId → PoolOp
  | push : PageId → BufferFrame → PoolOp
deriving Repr, DecidableEq

/-- Run one operation, keeping only the resulting policy state (`none` is a
panic inside the operation). -/
def stepOp (c : ClockSweep) : PoolOp → Option ClockSweep
  | PoolOp.request p => (c.request p).map (fun r => r.1)
  | PoolOp.push p f => (c.push p f).map (fun r => r.1)

/-- Run a list of operations left to right. -/
def runOps (c : ClockSweep) : List PoolOp → Option ClockSweep
  | [] => some c
  | op :: rest =>
    match stepOp c op with
    | none => none
    | some c2 => runOps c2 rest

/-- The side condition of the sequence claims: every pushed page id is fresh
(not resident) when its push runs, and the pushed frame carries that page id
(the manager always constructs frames this way).  A run that panics is not
good. -/
def goodOps (c : ClockSweep) : List PoolOp → Bool
  | [] => true
  | PoolOp.request p :: rest =>
    match stepOp c (PoolOp.request p) with
    | none => false
    | some c2 => goodOps c2 rest
  | PoolOp.push p f :: rest =>
    (decide (mlookup c.map p = none) && decide (f.page_id = p)) &&
      (match stepOp c (PoolOp.push p f) with
       | none => false
       | some c2 => goodOps c2 rest)

/-- A freshly constructed `ClockSweep` with positive capacity is
well-formed. -/
theorem WF_new (N : Nat) (hN : 0 < N) : WF (ClockSweep.new (some N)) := by
  refine ⟨?_, ?_, ?_, ?_, ?_, ?_, ?_⟩
  · show 0 < N
    exact hN
  · show 0 < N
    exact hN
  · show 0 ≤ N
    omega
  · rfl
  · simp [ClockSweep.new]
  · intro e he
    simp [ClockSweep.new] at he
  · intro i hi
    simp [ClockSweep.new] at hi

/-- A good run from a well-formed pool never panics and ends well-formed. -/
theorem runOps_WF :
    ∀ (ops : List PoolOp) (c : ClockSweep), WF c → goodOps c ops = true →
    ∃ c2, runOps c ops = some c2 ∧ WF c2 ∧ c2.capacity = c.capacity := by
  intro ops
  induction ops with
  | nil =>
    intro c hwf _
    exact ⟨c, rfl, hwf, rfl⟩
  | cons op rest ih =>
    intro c hwf hgood
    cases op with
    | request p =>
      obtain ⟨c2, r, hreq, hwf2, hcap2⟩ := c.request_total_WF p hwf
      have hstep : stepOp c (PoolOp.request p) = some c2 := by
        simp [stepOp, hreq]
      rw [goodOps, hstep] at hgood
      simp only [] at hgood
      obtain ⟨c3, hrun, hwf3, hcap3⟩ := ih c2 hwf2 hgood
      refine ⟨c3, ?_, hwf3, hcap3.trans hcap2⟩
      rw [runOps, hstep]
      simp only []
      exact hrun
    | push p f =>
      rw [goodOps] at hgood
      rw [Bool.and_eq_true, Bool.and_eq_true] at hgood
      obtain ⟨⟨h1, h2⟩, h3⟩ := hgood
      rw [decide_eq_true_eq] at h1 h2
      obtain ⟨c2, r, hpush, hwf2, hcap2⟩ := c.push_total_WF p f hwf h1 h2
      have hstep : stepOp c (PoolOp.push p f) = some c2 := by
        simp [stepOp, hpush]
      rw [hstep] at h3
      simp only [] at h3
      obtain ⟨c3, hrun, hwf3, hcap3⟩ := ih c2 hwf2 h3
      refine ⟨c3, ?_, hwf3, hcap3.trans hcap2⟩
      rw [runOps, hstep]
      simp only []
      exact hrun

theorem DiskManager.read_page_ok (d : DiskManager) (p : PageId) (len : Nat)
    (h : d.readErr p = none) :
    d.read_page p len = Except.ok (readBytes d p len) := by
  rw [DiskManager.read_page, h]

theorem DiskManager.read_page_err (d : DiskManager) (p : PageId) (len : Nat)
    (e : IOErr) (h : d.readErr p = some e) :
    d.read_page p len = Except.error e := by
  rw [DiskManager.read_page, h]

theorem DiskManager.write_page_err (d : DiskManager) (p : PageId)
    (data : List Nat) (e : IOErr) (h : d.writeErr p = some e) :
    d.write_page p data = Except.error e := by
  rw [DiskManager.write_page, h]

/-- A successful `write_page` stores exactly the written bytes at offset
`page_size * p` and leaves every other offset unchanged. -/
theorem DiskManager.write_page_bytes (d : DiskManager) (p : PageId)
    (data : List Nat) (d2 : DiskManager)
    (h : d.write_page p data = Except.ok d2) :
    (∀ j, j < data.length → d2.file (d.page_size * p + j) = data.getD j 0) ∧
    (∀ o, o < d.page_size * p ∨ d.page_size * p + data.length ≤ o →
      d2.file o = d.file o) := by
  rw [DiskManager.write_page] at h
  cases hw : d.writeErr p with
  | some e => rw [hw] at h; cases h
  | none =>
    rw [hw] at h
    injection h with h
    subst h
    constructor
    · intro j hj
      have hc : d.page_size * p ≤ d.page_size * p + j ∧
          d.page_size * p + j < d.page_size * p + data.length := by omega
      simp only [if_pos hc]
      congr 1
      omega
    · intro o ho
      have hc : ¬(d.page_size * p ≤ o ∧ o < d.page_size * p + data.length) := by
        omega
      simp only [if_neg hc]

/-- `fetch_page` on a miss whose disk read fails: the error is propagated and
the manager is unchanged. -/
theorem BufferPoolManager.fetch_miss_readfail (m : BufferPoolManager)
    (p : PageId) (e : IOErr)
    (hmiss : mlookup m.pool.map p = none)
    (hread : m.disk_manager.readErr p = some e) :
    m.fetch_page p = some (m, Except.error e) := by
  rw [BufferPoolManager.fetch_page, ClockSweep.request_miss m.pool p hmiss]
  simp only []
  rw [DiskManager.read_page_err _ _ _ _ hread]

/-- `fetch_page` on a miss whose `push` reports a non-eviction outcome
(`Success` or `PoolIsFull` alike — the source's `if let Ok` ignores both):
the new handle is returned as `Ok` regardless. -/
theorem BufferPoolManager.fetch_miss_push_err (m : BufferPoolManager)
    (p : PageId) (pool2 : ClockSweep) (ce : ClockSweepError)
    (hmiss : mlookup m.pool.map p = none)
    (hread : m.disk_manager.readErr p = none)
    (hpush : m.pool.push p (BufferFrame.new m.next_stamp p
        (readBytes m.disk_manager p m.disk_manager.page_size)) =
      some (pool2, Except.error ce)) :
    m.fetch_page p = some ({ m with
        pool := pool2
        next_stamp := m.next_stamp + 1 },
      Except.ok (BufferFrame.new m.next_stamp p
        (readBytes m.disk_manager p m.disk_manager.page_size))) := by
  rw [BufferPoolManager.fetch_page, ClockSweep.request_miss m.pool p hmiss]
  simp only []
  rw [DiskManager.read_page_ok _ _ _ hread]
  simp only []
  rw [hpush]

/-- `fetch_page` on a miss that evicts a clean victim: no disk write happens
and the new handle is returned. -/
theorem BufferPoolManager.fetch_miss_evict_clean (m : BufferPoolManager)
    (p : PageId) (pool2 : ClockSweep) (q : PageId) (g : BufferFrame)
    (hmiss : mlookup m.pool.map p = none)
    (hread : m.disk_manager.readErr p = none)
    (hpush : m.pool.push p (BufferFrame.new m.next_stamp p
        (readBytes m.disk_manager p m.disk_manager.page_size)) =
      some (pool2, Except.ok (q, g)))
    (hclean : g.is_dirty = false) :
    m.fetch_page p = some ({ m with
        pool := pool2
        next_stamp := m.next_stamp + 1 },
      Except.ok (BufferFrame.new m.next_stamp p
        (readBytes m.disk_manager p m.disk_manager.page_size))) := by
  rw [BufferPoolManager.fetch_page, ClockSweep.request_miss m.pool p hmiss]
  simp only []
  rw [DiskManager.read_page_ok _ _ _ hread]
  simp only []
  rw [hpush]
  simp only [hclean]
  rw [if_neg (fun hh => Bool.false_ne_true hh)]

/-- `fetch_page` on a miss that evicts a dirty victim and whose write-back
succeeds: the victim's bytes go to disk and the new handle is returned. -/
theorem BufferPoolManager.fetch_miss_evict_dirty_ok (m : BufferPoolManager)
    (p : PageId) (pool2 : ClockSweep) (q : PageId) (g : BufferFrame)
    (d2 : DiskManager)
    (hmiss : mlookup m.pool.map p = none)
    (hread : m.disk_manager.readErr p = none)
    (hpush : m.pool.push p (BufferFrame.new m.next_stamp p
        (readBytes m.disk_manager p m.disk_manager.page_size)) =
      some (pool2, Except.ok (q, g)))
    (hdirty : g.is_dirty = true)
    (hw : m.disk_manager.write_page q g.page = Except.ok d2) :
    m.fetch_page p = some ({ m with
        disk_manager := d2
        pool := pool2
        next_stamp := m.next_stamp + 1 },
      Except.ok (BufferFrame.new m.next_stamp p
        (readBytes m.disk_manager p m.disk_manager.page_size))) := by
  rw [BufferPoolManager.fetch_page, ClockSweep.request_miss m.pool p hmiss]
  simp only []
  rw [DiskManager.read_page_ok _ _ _ hread]
  simp only []
  rw [hpush]
  simp only [hdirty, if_true]
  rw [hw]

/-- `fetch_page` on a miss that evicts a dirty victim and whose write-back
fails: the I/O error is propagated, but the pool mutation made by `push`
stays. -/
theorem BufferPoolManager.fetch_miss_evict_dirty_err (m : BufferPoolManager)
    (p : PageId) (pool2 : ClockSweep) (q : PageId) (g : BufferFrame)
    (e : IOErr)
    (hmiss : mlookup m.pool.map p = none)
    (hread : m.disk_manager.readErr p = none)
    (hpush : m.pool.push p (BufferFrame.new m.next_stamp p
        (readBytes m.disk_manager p m.disk_manager.page_size)) =
      some (pool2, Except.ok (q, g)))
    (hdirty : g.is_dirty = true)
    (hw : m.disk_manager.writeErr q = some e) :
    m.fetch_page p = some ({ m with
        pool := pool2
        next_stamp := m.next_stamp + 1 },
      Except.error e) := by
  rw [BufferPoolManager.fetch_page, ClockSweep.request_miss m.pool p hmiss]
  simp only []
  rw [DiskManager.read_page_ok _ _ _ hread]
  simp only []
  rw [hpush]
  simp only [hdirty, if_true]
  rw [DiskManager.write_page_err _ _ _ _ hw]

instance {a b : Type} [DecidableEq a] [DecidableEq b] : DecidableEq (Except a b) :=
  fun x y =>
  match x, y with
  | Except.error e1, Except.error e2 =>
    if h : e1 = e2 then isTrue (by rw [h]) else isFalse (fun hh => h (by injection hh))
  | Except.ok v1, Except.ok v2 =>
    if h : v1 = v2 then isTrue (by rw [h]) else isFalse (fun hh => h (by injection hh))
  | Except.error e1, Except.ok v2 => isFalse (fun hh => Except.noConfusion hh)
  | Except.ok v1, Except.error e2 => isFalse (fun hh => Except.noConfusion hh)

/-- A concrete frame handle used by the example pools below. -/
def frameAt (s : Nat) (p : PageId) (er : Nat) : BufferFrame :=
  { stamp := s, page_id := p, page := [0], is_dirty := false, extRefs := er }

/-- A one-slot pool whose resident frame has `use_counter = 0` but is still
externally referenced (`extRefs = 1`). -/
def pinnedZeroPool : ClockSweep :=
  { capacity := 1, clock_hand := 0, frames := [(0, frameAt 1 1 1)], map := [(1, 0)] }

/-- C1 counterexample: on `pinnedZeroPool`, `push` selects the slot with
`use_counter = 0` as victim even though the resident frame has an
outstanding external handle, evicting an externally referenced frame; the
claim that `push` never does this is false. -/
theorem clocksweep_push_evicts_pinned_zero_counter :
    (pinnedZeroPool.push 2 (BufferFrame.new 2 2 [0])).map (fun r => r.2) =
      some (Except.ok (1, frameAt 1 1 1)) ∧
    0 < (frameAt 1 1 1).extRefs := by
  constructor
  · rfl
  · decide

/-- C1 (amended): on a well-formed pool in which every externally referenced
frame has a nonzero use counter at the time of the call, an evicting `push`
returns a frame with no outstanding external handle: the sweep never
decrements pinned counters, so the victim (whose counter is 0 at selection)
cannot be pinned.  (Without the counter hypothesis the guarantee fails: a
pinned frame with `use_counter = 0` is selected regardless, as the
counterexample shows.) -/
theorem clocksweep_push_evicted_frame_unreferenced (c : ClockSweep)
    (p : PageId) (f : BufferFrame) (c2 : ClockSweep) (q : PageId)
    (g : BufferFrame) (hwf : WF c)
    (hpin : ∀ cf ∈ c.frames, 0 < cf.2.extRefs → 1 ≤ cf.1)
    (h : c.push p f = some (c2, Except.ok (q, g))) :
    g.extRefs = 0 := by
  obtain ⟨v, frames2, hsw, hlkv, hv, hvf, hc2⟩ := c.push_evict p f c2 q g hwf h
  obtain ⟨hslen, hsnd, hcnt, hhand2, _⟩ := sweepGo_some_inv _ _ _ _ _ hsw
  simp only [SweepResult.framesOf] at hslen hsnd hcnt
  have h1 := hsnd v
  rw [hvf] at h1
  cases h2 : c.frames[v]? with
  | none =>
    rw [h2] at h1
    cases h1
  | some cf =>
    rw [h2] at h1
    injection h1 with h1
    have hcf2 : g = cf.2 := h1
    by_contra h0
    have hpos : 0 < g.extRefs := Nat.pos_of_ne_zero h0
    have hpos2 : 0 < cf.2.extRefs := by rw [← hcf2]; exact hpos
    have hc1 := hpin cf (List.getElem?_mem h2) hpos2
    have hz0 := hcnt v cf (0, g) h2 hvf hpos2
    have hz : (0 : Nat) = cf.1 := hz0
    omega

/-- A one-slot pool whose resident frame has `use_counter = 0` and no
external handle. -/
def cleanZeroPool : ClockSweep :=
  { capacity := 1, clock_hand := 0, frames := [(0, frameAt 3 5 0)], map := [(5, 0)] }

/-- Witness for the amended C1 theorem at a concrete input. -/
theorem clocksweep_push_evicted_frame_unreferenced_witness :
    WF cleanZeroPool ∧
    (∀ cf ∈ cleanZeroPool.frames, 0 < cf.2.extRefs → 1 ≤ cf.1) ∧
    cleanZeroPool.push 6 (BufferFrame.new 4 6 [0]) =
      some ({ capacity := 1, clock_hand := 0,
              frames := [(0, BufferFrame.new 4 6 [0])], map := [(6, 0)] },
        Except.ok (5, frameAt 3 5 0)) ∧
    (frameAt 3 5 0).extRefs = 0 :=
  ⟨by decide, by decide, by decide,
    clocksweep_push_evicted_frame_unreferenced cleanZeroPool 6
      (BufferFrame.new 4 6 [0])
      { capacity := 1, clock_hand := 0,
        frames := [(0, BufferFrame.new 4 6 [0])], map := [(6, 0)] }
      5 (frameAt 3 5 0) (by decide) (by decide) (by decide)⟩

/-- A full two-slot pool, both frames externally referenced with
`use_counter = 1`. -/
def fullPinnedTwo : ClockSweep :=
  { capacity := 2, clock_hand := 0,
    frames := [(1, frameAt 10 10 1), (1, frameAt 11 11 1)],
    map := [(10, 0), (11, 1)] }

/-- A full two-slot pool, both frames externally referenced, the first with
`use_counter = 0`. -/
def fullPinnedZeroCtr : ClockSweep :=
  { capacity := 2, clock_hand := 0,
    frames := [(0, frameAt 20 20 1), (1, frameAt 21 21 1)],
    map := [(20, 0), (21, 1)] }

/-- C3 counterexample: (a) on `fullPinnedTwo` (every resident frame pinned),
`push` does fail with `PoolIsFull`, but the clock hand has moved from 0 to 1
— the state is not "exactly as before the call"; (b) on
`fullPinnedZeroCtr` (also every resident frame pinned, one with counter 0),
`push` does not fail at all: it evicts the pinned counter-0 frame. -/
theorem clocksweep_push_full_pinned_mutates_hand :
    ((fullPinnedTwo.push 12 (BufferFrame.new 12 12 [0])).map
        (fun r => (r.2, r.1.clock_hand)) =
      some (Except.error ClockSweepError.PoolIsFull, 1) ∧
      fullPinnedTwo.clock_hand = 0) ∧
    (fullPinnedZeroCtr.push 22 (BufferFrame.new 22 22 [0])).map (fun r => r.2) =
      some (Except.ok (20, frameAt 20 20 1)) := by
  refine ⟨⟨?_, ?_⟩, ?_⟩
  · rfl
  · rfl
  · rfl

/-- C3 (amended): on a well-formed full pool in which every resident frame
is externally referenced and has a nonzero use counter, `push` fails with
`PoolIsFull` within at most `N` loop iterations (the second conjunct runs
the sweep with fuel `N`); the slots and the index map are unchanged, but the
clock hand ends at `(hand + N - 1) mod N` — it advanced `N - 1` times before
the failure count reached `N`. -/
theorem clocksweep_push_full_pinned_fails_bounded (c : ClockSweep)
    (p : PageId) (f : BufferFrame) (hwf : WF c)
    (hfull : c.frames.length = c.capacity)
    (hpin : ∀ cf ∈ c.frames, 1 ≤ cf.1 ∧ 0 < cf.2.extRefs) :
    c.push p f = some ({ c with
        clock_hand := (c.clock_hand + (c.capacity - 1)) % c.capacity },
      Except.error ClockSweepError.PoolIsFull) ∧
    sweepGo c.frames.length c.frames c.clock_hand 0 =
      some (SweepResult.full c.frames
        ((c.clock_hand + (c.capacity - 1)) % c.capacity)) := by
  refine ⟨c.push_full_pinned p f hwf hfull hpin, ?_⟩
  have hcap := hwf.1
  have hhand : c.clock_hand < c.frames.length := by
    have := hwf.2.1
    omega
  have h := sweepGo_all_pinned c.frames.length c.frames c.clock_hand 0 hpin
    hhand (by omega) (by omega)
  simp only [Nat.sub_zero] at h
  rw [hfull] at h
  rw [hfull]
  exact h

/-- Witness for the amended C3 theorem at a concrete input. -/
theorem clocksweep_push_full_pinned_fails_bounded_witness :
    WF fullPinnedTwo ∧
    fullPinnedTwo.frames.length = fullPinnedTwo.capacity ∧
    (∀ cf ∈ fullPinnedTwo.frames, 1 ≤ cf.1 ∧ 0 < cf.2.extRefs) ∧
    fullPinnedTwo.push 12 (BufferFrame.new 12 12 [0]) =
      some ({ fullPinnedTwo with
          clock_hand := (fullPinnedTwo.clock_hand +
            (fullPinnedTwo.capacity - 1)) % fullPinnedTwo.capacity },
        Except.error ClockSweepError.PoolIsFull) :=
  ⟨by decide, by decide, by decide,
    (clocksweep_push_full_pinned_fails_bounded fullPinnedTwo 12
      (BufferFrame.new 12 12 [0]) (by decide) (by decide) (by decide)).1⟩

/-- C6: after a `push` of a fresh page `p` on a well-formed pool reports the
eviction of `(q, g)`: `q` is no longer in the index map, `p` now maps to the
slot that held `q`, that slot holds `(0, f)`, and the clock hand is left
pointing at the just-replaced slot. -/
theorem clocksweep_push_evict_postcondition (c : ClockSweep) (p : PageId)
    (f : BufferFrame) (c2 : ClockSweep) (q : PageId) (g : BufferFrame)
    (hwf : WF c) (hfresh : mlookup c.map p = none)
    (h : c.push p f = some (c2, Except.ok (q, g))) :
    mlookup c2.map q = none ∧
    mlookup c.map q = some c2.clock_hand ∧
    mlookup c2.map p = some c2.clock_hand ∧
    c2.frames[c2.clock_hand]? = some (0, f) := by
  obtain ⟨v, frames2, hsw, hlkv, hv, hvf, hc2⟩ := c.push_evict p f c2 q g hwf h
  subst hc2
  have hpq : p ≠ q := by
    intro hEq
    rw [hEq, hlkv] at hfresh
    cases hfresh
  refine ⟨?_, hlkv, ?_, ?_⟩
  · show mlookup (minsert (merase c.map q) p v) q = none
    rw [mlookup_minsert_ne _ _ _ _ (Ne.symm hpq)]
    exact mlookup_merase_self _ _
  · show mlookup (minsert (merase c.map q) p v) p = some v
    exact mlookup_minsert_self _ _ _
  · show (frames2.set v (0, f))[v]? = some (0, f)
    have hvlen : v < frames2.length := lt_length_of_getElem? _ _ _ hvf
    exact List.getElem?_set_eq_of_lt _ hvlen

/-- A one-slot pool holding page 7 with no external handle. -/
def sevenPool : ClockSweep :=
  { capacity := 1, clock_hand := 0, frames := [(0, frameAt 7 7 0)], map := [(7, 0)] }

/-- The pool `sevenPool` becomes after page 8 replaces page 7. -/
def sevenPoolAfter : ClockSweep where
  capacity := 1
  clock_hand := 0
  frames := [(0, BufferFrame.new 8 8 [0])]
  map := [(8, 0)]

/-- Witness for the C6 theorem at a concrete input. -/
theorem clocksweep_push_evict_postcondition_witness :
    WF sevenPool ∧ mlookup sevenPool.map 8 = none ∧
    sevenPool.push 8 (BufferFrame.new 8 8 [0]) =
      some (sevenPoolAfter, Except.ok (7, frameAt 7 7 0)) ∧
    (mlookup sevenPoolAfter.map 7 = none ∧
      mlookup sevenPool.map 7 = some sevenPoolAfter.clock_hand ∧
      mlookup sevenPoolAfter.map 8 = some sevenPoolAfter.clock_hand ∧
      sevenPoolAfter.frames[sevenPoolAfter.clock_hand]? =
        some (0, BufferFrame.new 8 8 [0])) :=
  ⟨by decide, by decide, by decide,
    clocksweep_push_evict_postcondition sevenPool 8 (BufferFrame.new 8 8 [0])
      sevenPoolAfter 7 (frameAt 7 7 0) (by decide) (by decide) (by decide)⟩

/-- C7: starting from a freshly constructed pool of positive capacity `N`,
any sequence of `request`s and fresh-page `push`es (frames carrying their
page ids, as the manager builds them) runs without panicking, and afterwards
the index map is exactly as large as the set of occupied slots, never more
than `N` slots are occupied, and every map entry points at a slot holding a
frame with that same page id. -/
theorem clocksweep_sequence_invariants (N : Nat) (hN : 0 < N)
    (ops : List PoolOp)
    (hgood : goodOps (ClockSweep.new (some N)) ops = true) :
    ∃ c2, runOps (ClockSweep.new (some N)) ops = some c2 ∧
      c2.map.length = c2.frames.length ∧
      c2.frames.length ≤ N ∧
      (∀ e ∈ c2.map, c2.frames[e.2]?.map (fun cf => cf.2.page_id) = some e.1) := by
  obtain ⟨c2, hrun, hwf2, hcap2⟩ :=
    runOps_WF ops (ClockSweep.new (some N)) (WF_new N hN) hgood
  have hcapN : c2.capacity = N := hcap2
  refine ⟨c2, hrun, hwf2.2.2.2.1, ?_, hwf2.2.2.2.2.2.1⟩
  have := hwf2.2.2.1
  omega

/-- A demonstration run: fill a capacity-2 pool, touch page 1, then push a
third page, forcing one eviction. -/
def demoOps : List PoolOp :=
  [PoolOp.push 1 (BufferFrame.new 1 1 [0]), PoolOp.request 1,
   PoolOp.push 2 (BufferFrame.new 2 2 [0]), PoolOp.push 3 (BufferFrame.new 3 3 [0])]

/-- Witness for the C7 theorem at a concrete input. -/
theorem clocksweep_sequence_invariants_witness :
    0 < 2 ∧ goodOps (ClockSweep.new (some 2)) demoOps = true ∧
    ∃ c2, runOps (ClockSweep.new (some 2)) demoOps = some c2 ∧
      c2.map.length = c2.frames.length ∧
      c2.frames.length ≤ 2 ∧
      (∀ e ∈ c2.map, c2.frames[e.2]?.map (fun cf => cf.2.page_id) = some e.1) :=
  ⟨by decide, by decide,
    clocksweep_sequence_invariants 2 (by decide) demoOps (by decide)⟩

/-- C8: a `push` of a fresh page on a pool with free capacity appends
`(0, f)` at the next free slot index — equal to the current number of
occupied slots — records the page in the map at that index, and reports the
`Success` outcome, which is a different value from the `PoolIsFull`
failure. -/
theorem clocksweep_push_free_inserts (c : ClockSweep) (p : PageId)
    (f : BufferFrame) (hfree : c.frames.length < c.capacity)
    (hfresh : mlookup c.map p = none) :
    c.push p f = some ({ c with
        frames := c.frames ++ [(0, f)]
        map := (p, c.frames.length) :: c.map },
      Except.error ClockSweepError.Success) ∧
    (Except.error ClockSweepError.Success :
        Except ClockSweepError (PageId × BufferFrame)) ≠
      Except.error ClockSweepError.PoolIsFull := by
  constructor
  · rw [c.push_free p f hfree, minsert_of_fresh _ _ _ hfresh]
  · intro hEq
    injection hEq with hEq
    cases hEq

/-- A capacity-2 pool with one occupied slot. -/
def halfPool : ClockSweep :=
  { capacity := 2, clock_hand := 0, frames := [(0, frameAt 30 30 0)], map := [(30, 0)] }

/-- Witness for the C8 theorem at a concrete input. -/
theorem clocksweep_push_free_inserts_witness :
    halfPool.frames.length < halfPool.capacity ∧
    mlookup halfPool.map 31 = none ∧
    halfPool.push 31 (BufferFrame.new 31 31 [0]) =
      some ({ halfPool with
          frames := halfPool.frames ++ [(0, BufferFrame.new 31 31 [0])]
          map := (31, halfPool.frames.length) :: halfPool.map },
        Except.error ClockSweepError.Success) :=
  ⟨by decide, by decide,
    (clocksweep_push_free_inserts halfPool 31 (BufferFrame.new 31 31 [0])
      (by decide) (by decide)).1⟩

/-- C9: `request p` returns `None` (and changes nothing) when `p` is not in
the map; on a hit at slot `i` it bumps that slot's counter by exactly one
and returns a clone of the resident frame, so a second `request p` with no
intervening `push` returns a handle to the same underlying frame (same
stamp) and bumps the counter again; and `request_with_hint` is definitionally
`request`.  (`request` is a pure function of the policy state: no disk state
appears in its type.) -/
theorem clocksweep_request_contract (c : ClockSweep) (p : PageId) :
    (mlookup c.map p = none → c.request p = some (c, none)) ∧
    (∀ (i cnt : Nat) (fr : BufferFrame), mlookup c.map p = some i →
      c.frames[i]? = some (cnt, fr) →
      c.request p =
        some ({ c with frames := c.frames.set i (cnt + 1, fr) }, some fr) ∧
      ClockSweep.request { c with frames := c.frames.set i (cnt + 1, fr) } p =
        some ({ c with frames := c.frames.set i (cnt + 2, fr) }, some fr)) ∧
    (∀ hint, c.request_with_hint hint p = c.request p) := by
  refine ⟨fun h => c.request_miss p h, ?_, fun _ => rfl⟩
  intro i cnt fr hlk hfr
  have hi : i < c.frames.length := lt_length_of_getElem? _ _ _ hfr
  refine ⟨c.request_hit p i cnt fr hlk hfr, ?_⟩
  have hlk2 : mlookup ({ c with
      frames := c.frames.set i (cnt + 1, fr) } : ClockSweep).map p = some i := hlk
  have hfr2 : ({ c with
      frames := c.frames.set i (cnt + 1, fr) } : ClockSweep).frames[i]? =
      some (cnt + 1, fr) := by
    show (c.frames.set i (cnt + 1, fr))[i]? = some (cnt + 1, fr)
    exact List.getElem?_set_eq_of_lt _ hi
  have h2 := ClockSweep.request_hit _ p i (cnt + 1) fr hlk2 hfr2
  rw [h2]
  simp only [List.set_set]

/-- A capacity-2 pool holding page 9 at slot 0 with counter 0. -/
def ninePool : ClockSweep :=
  { capacity := 2, clock_hand := 0, frames := [(0, frameAt 9 9 0)], map := [(9, 0)] }

/-- Witness for the C9 theorem at a concrete input: a miss on page 4, and a
double hit on page 9. -/
theorem clocksweep_request_contract_witness :
    (mlookup ninePool.map 4 = none ∧ ninePool.request 4 = some (ninePool, none)) ∧
    (mlookup ninePool.map 9 = some 0 ∧
      ninePool.frames[(0 : Nat)]? = some (0, frameAt 9 9 0) ∧
      ninePool.request 9 =
        some ({ ninePool with
            frames := ninePool.frames.set 0 (0 + 1, frameAt 9 9 0) },
          some (frameAt 9 9 0)) ∧
      ClockSweep.request { ninePool with
          frames := ninePool.frames.set 0 (0 + 1, frameAt 9 9 0) } 9 =
        some ({ ninePool with
            frames := ninePool.frames.set 0 (0 + 2, frameAt 9 9 0) },
          some (frameAt 9 9 0))) :=
  ⟨⟨by decide, (clocksweep_request_contract ninePool 4).1 (by decide)⟩,
    by decide, by decide,
    ((clocksweep_request_contract ninePool 9).2.1 0 0 (frameAt 9 9 0)
      (by decide) (by decide)).1,
    ((clocksweep_request_contract ninePool 9).2.1 0 0 (frameAt 9 9 0)
      (by decide) (by decide)).2⟩

/-- A disk whose every byte reads 9 and whose I/O never fails. -/
def quietDisk : DiskManager where
  page_size := 2
  file := fun _ => 9
  readErr := fun _ => none
  writeErr := fun _ => none

/-- A full capacity-1 pool whose only frame is externally referenced with a
nonzero use counter: no frame is evictable. -/
def pinnedFullOne : ClockSweep :=
  { capacity := 1, clock_hand := 0, frames := [(1, frameAt 40 40 1)], map := [(40, 0)] }

/-- A manager whose pool is exhausted (`pinnedFullOne`). -/
def exhaustedMgr : BufferPoolManager where
  disk_manager := quietDisk
  pool := pinnedFullOne
  next_stamp := 100

/-- C2: evaluated at a state where the policy's push fails with
`PoolIsFull`, `fetch_page` nevertheless returns `Ok` with a handle to the
freshly built frame, and the requested page was never inserted into the
pool's map — the spec's required retryable error never surfaces (the source
marks the spot with a `Todo` comment). -/
theorem fetch_page_pool_full_returns_ok_not_error :
    (exhaustedMgr.fetch_page 41).map (fun r => (r.2, r.1.pool.map)) =
      some (Except.ok (BufferFrame.new 100 41 [9, 9]), [(40, 0)]) := by
  rfl

/-- C4: on a miss whose `push` evicts `(q, g)`: if `g` is dirty and the
write-back succeeds, the victim's full page bytes are on disk at offset
`q × PageSize` in the state `fetch_page` returns together with the new
handle; if `g` is dirty and the write fails, `fetch_page` does not return
the new handle (the error surfaces first); if `g` is clean, the disk is
untouched. -/
theorem fetch_page_dirty_victim_written (m : BufferPoolManager) (p : PageId)
    (pool2 : ClockSweep) (q : PageId) (g : BufferFrame)
    (hmiss : mlookup m.pool.map p = none)
    (hread : m.disk_manager.readErr p = none)
    (hpush : m.pool.push p (BufferFrame.new m.next_stamp p
        (readBytes m.disk_manager p m.disk_manager.page_size)) =
      some (pool2, Except.ok (q, g))) :
    (∀ d2, g.is_dirty = true →
      m.disk_manager.write_page q g.page = Except.ok d2 →
      m.fetch_page p = some ({ m with
          disk_manager := d2
          pool := pool2
          next_stamp := m.next_stamp + 1 },
        Except.ok (BufferFrame.new m.next_stamp p
          (readBytes m.disk_manager p m.disk_manager.page_size))) ∧
      (∀ j, j < g.page.length →
        d2.file (m.disk_manager.page_size * q + j) = g.page.getD j 0)) ∧
    (∀ e, g.is_dirty = true → m.disk_manager.writeErr q = some e →
      m.fetch_page p = some ({ m with
          pool := pool2
          next_stamp := m.next_stamp + 1 },
        Except.error e)) ∧
    (g.is_dirty = false →
      m.fetch_page p = some ({ m with
          pool := pool2
          next_stamp := m.next_stamp + 1 },
        Except.ok (BufferFrame.new m.next_stamp p
          (readBytes m.disk_manager p m.disk_manager.page_size)))) := by
  refine ⟨?_, ?_, ?_⟩
  · intro d2 hd hw
    exact ⟨m.fetch_miss_evict_dirty_ok p pool2 q g d2 hmiss hread hpush hd hw,
      (DiskManager.write_page_bytes _ _ _ _ hw).1⟩
  · intro e hd hw
    exact m.fetch_miss_evict_dirty_err p pool2 q g e hmiss hread hpush hd hw
  · intro hc
    exact m.fetch_miss_evict_clean p pool2 q g hmiss hread hpush hc

/-- A dirty resident frame for page 50 with bytes `[7, 8]`. -/
def dirtyFifty : BufferFrame :=
  { stamp := 50, page_id := 50, page := [7, 8], is_dirty := true, extRefs := 0 }

/-- A capacity-1 manager holding the dirty page 50. -/
def dirtyMgr : BufferPoolManager where
  disk_manager := quietDisk
  pool := { capacity := 1, clock_hand := 0, frames := [(0, dirtyFifty)], map := [(50, 0)] }
  next_stamp := 200

/-- The pool of `dirtyMgr` after page 51 replaces page 50. -/
def dirtyPoolAfter : ClockSweep where
  capacity := 1
  clock_hand := 0
  frames := [(0, BufferFrame.new 200 51 [9, 9])]
  map := [(51, 0)]

/-- The disk of `dirtyMgr` after the victim's bytes `[7, 8]` land at offset
`2 × 50`. -/
def dirtyDiskAfter : DiskManager :=
  { quietDisk with
      file := fun o =>
        if quietDisk.page_size * 50 ≤ o ∧
            o < quietDisk.page_size * 50 + dirtyFifty.page.length then
          dirtyFifty.page.getD (o - quietDisk.page_size * 50) 0
        else quietDisk.file o }

/-- Witness for the C4 theorem at a concrete input (dirty write-back
branch). -/
theorem fetch_page_dirty_victim_written_witness :
    mlookup dirtyMgr.pool.map 51 = none ∧
    dirtyMgr.disk_manager.readErr 51 = none ∧
    dirtyMgr.pool.push 51 (BufferFrame.new dirtyMgr.next_stamp 51
        (readBytes dirtyMgr.disk_manager 51 dirtyMgr.disk_manager.page_size)) =
      some (dirtyPoolAfter, Except.ok (50, dirtyFifty)) ∧
    dirtyFifty.is_dirty = true ∧
    dirtyMgr.disk_manager.write_page 50 dirtyFifty.page =
      Except.ok dirtyDiskAfter ∧
    (dirtyMgr.fetch_page 51 = some ({ dirtyMgr with
        disk_manager := dirtyDiskAfter
        pool := dirtyPoolAfter
        next_stamp := dirtyMgr.next_stamp + 1 },
      Except.ok (BufferFrame.new dirtyMgr.next_stamp 51
        (readBytes dirtyMgr.disk_manager 51 dirtyMgr.disk_manager.page_size))) ∧
      (∀ j, j < dirtyFifty.page.length →
        dirtyDiskAfter.file (dirtyMgr.disk_manager.page_size * 50 + j) =
          dirtyFifty.page.getD j 0)) :=
  ⟨by decide, rfl, by decide, rfl, rfl,
    (fetch_page_dirty_victim_written dirtyMgr 51 dirtyPoolAfter 50 dirtyFifty
      (by decide) rfl (by decide)).1 dirtyDiskAfter rfl rfl⟩

/-- A disk that fails every write to page 60 with error code 42. -/
def failWriteDisk : DiskManager where
  page_size := 2
  file := fun _ => 9
  readErr := fun _ => none
  writeErr := fun p => if p = 60 then some 42 else none

/-- A dirty resident frame for page 60. -/
def dirtySixty : BufferFrame :=
  { stamp := 60, page_id := 60, page := [7, 8], is_dirty := true, extRefs := 0 }

/-- A capacity-1 manager holding dirty page 60 over `failWriteDisk`. -/
def failWriteMgr : BufferPoolManager where
  disk_manager := failWriteDisk
  pool := { capacity := 1, clock_hand := 0, frames := [(0, dirtySixty)], map := [(60, 0)] }
  next_stamp := 300

/-- C5 counterexample: when the victim write-back fails, the I/O error is
propagated, but the fetch is not free of effects on the pool: the new frame
was inserted and the victim's map entry removed before the failing write
ran, so the map went from `[(60, 0)]` to `[(61, 0)]`. -/
theorem fetch_page_write_failure_mutates_pool :
    (failWriteMgr.fetch_page 61).map (fun r => (r.2, r.1.pool.map)) =
      some (Except.error 42, [(61, 0)]) ∧
    failWriteMgr.pool.map = [(60, 0)] := by
  constructor
  · rfl
  · rfl

/-- C5 (amended): a failed disk read during `fetch_page` is propagated
verbatim and the manager is completely unchanged (the frame is not built,
the pool is not touched); a failed write-back of the dirty victim is also
propagated verbatim, but the pool mutation already made by `push` remains:
the new frame is resident in `pool2` and the victim is gone. -/
theorem fetch_page_io_error_propagation (m : BufferPoolManager) (p : PageId)
    (hmiss : mlookup m.pool.map p = none) :
    (∀ e, m.disk_manager.readErr p = some e →
      m.fetch_page p = some (m, Except.error e)) ∧
    (∀ pool2 q g e, m.disk_manager.readErr p = none →
      m.pool.push p (BufferFrame.new m.next_stamp p
          (readBytes m.disk_manager p m.disk_manager.page_size)) =
        some (pool2, Except.ok (q, g)) →
      g.is_dirty = true → m.disk_manager.writeErr q = some e →
      m.fetch_page p = some ({ m with
          pool := pool2
          next_stamp := m.next_stamp + 1 },
        Except.error e)) :=
  ⟨fun e he => BufferPoolManager.fetch_miss_readfail m p e hmiss he,
    fun pool2 q g e hread hpush hd hw =>
      BufferPoolManager.fetch_miss_evict_dirty_err m p pool2 q g e hmiss hread
        hpush hd hw⟩

/-- The pool of `failWriteMgr` after page 61 replaces page 60. -/
def failWritePoolAfter : ClockSweep where
  capacity := 1
  clock_hand := 0
  frames := [(0, BufferFrame.new 300 61 [9, 9])]
  map := [(61, 0)]

/-- Witness for the amended C5 theorem at a concrete input (write-back
failure branch). -/
theorem fetch_page_io_error_propagation_witness :
    mlookup failWriteMgr.pool.map 61 = none ∧
    failWriteMgr.disk_manager.readErr 61 = none ∧
    failWriteMgr.pool.push 61 (BufferFrame.new failWriteMgr.next_stamp 61
        (readBytes failWriteMgr.disk_manager 61
          failWriteMgr.disk_manager.page_size)) =
      some (failWritePoolAfter, Except.ok (60, dirtySixty)) ∧
    dirtySixty.is_dirty = true ∧
    failWriteMgr.disk_manager.writeErr 60 = some 42 ∧
    failWriteMgr.fetch_page 61 = some ({ failWriteMgr with
        pool := failWritePoolAfter
        next_stamp := failWriteMgr.next_stamp + 1 },
      Except.error 42) :=
  ⟨by decide, rfl, by decide, rfl, rfl,
    (fetch_page_io_error_propagation failWriteMgr 61 (by decide)).2
      failWritePoolAfter 60 dirtySixty 42 rfl (by decide) rfl rfl⟩

/-- C10: when the policy's push fails with `PoolIsFull` inside a miss (full
pool, every frame externally referenced with a nonzero counter),
`fetch_page` still returns `Ok` with the freshly allocated frame even though
it was never inserted: the map and the slots are unchanged and the disk
untouched; a second `fetch_page` of the same page therefore misses again,
reads the page from disk a second time, and returns a handle to a distinct
frame (a different allocation stamp). -/
theorem fetch_page_pool_full_quirk (m : BufferPoolManager) (p : PageId)
    (hwf : WF m.pool)
    (hmiss : mlookup m.pool.map p = none)
    (hfull : m.pool.frames.length = m.pool.capacity)
    (hpin : ∀ cf ∈ m.pool.frames, 1 ≤ cf.1 ∧ 0 < cf.2.extRefs)
    (hread : m.disk_manager.readErr p = none) :
    ∃ m2 m3,
      m.fetch_page p = some (m2,
        Except.ok (BufferFrame.new m.next_stamp p
          (readBytes m.disk_manager p m.disk_manager.page_size))) ∧
      m2.pool.map = m.pool.map ∧
      m2.pool.frames = m.pool.frames ∧
      m2.disk_manager = m.disk_manager ∧
      m2.next_stamp = m.next_stamp + 1 ∧
      m2.fetch_page p = some (m3,
        Except.ok (BufferFrame.new (m.next_stamp + 1) p
          (readBytes m.disk_manager p m.disk_manager.page_size))) ∧
      m3.pool.map = m.pool.map ∧
      BufferFrame.new (m.next_stamp + 1) p
          (readBytes m.disk_manager p m.disk_manager.page_size) ≠
        BufferFrame.new m.next_stamp p
          (readBytes m.disk_manager p m.disk_manager.page_size) := by
  obtain ⟨hcap, hhand, hlen, hmlen, hnd, hfwd, hinv⟩ := hwf
  have hwf1 : WF m.pool := ⟨hcap, hhand, hlen, hmlen, hnd, hfwd, hinv⟩
  have hpush1 := ClockSweep.push_full_pinned m.pool p
    (BufferFrame.new m.next_stamp p
      (readBytes m.disk_manager p m.disk_manager.page_size)) hwf1 hfull hpin
  have hfetch1 := BufferPoolManager.fetch_miss_push_err m p _
    ClockSweepError.PoolIsFull hmiss hread hpush1
  have hX : (m.pool.clock_hand + (m.pool.capacity - 1)) % m.pool.capacity <
      m.pool.capacity := Nat.mod_lt _ hcap
  have hwf2 : WF { m.pool with
      clock_hand := (m.pool.clock_hand + (m.pool.capacity - 1)) %
        m.pool.capacity } :=
    ⟨hcap, hX, hlen, hmlen, hnd, hfwd, hinv⟩
  have hpush2 := ClockSweep.push_full_pinned
    ({ m.pool with
        clock_hand := (m.pool.clock_hand + (m.pool.capacity - 1)) %
          m.pool.capacity }) p
    (BufferFrame.new (m.next_stamp + 1) p
      (readBytes m.disk_manager p m.disk_manager.page_size)) hwf2 hfull hpin
  have hfetch2 := BufferPoolManager.fetch_miss_push_err
    ({ m with
        pool := { m.pool with
          clock_hand := (m.pool.clock_hand + (m.pool.capacity - 1)) %
            m.pool.capacity }
        next_stamp := m.next_stamp + 1 }) p _
    ClockSweepError.PoolIsFull hmiss hread hpush2
  refine ⟨_, _, hfetch1, rfl, rfl, rfl, rfl, hfetch2, rfl, ?_⟩
  intro hEq
  have h2 := congrArg BufferFrame.stamp hEq
  simp only [BufferFrame.new] at h2
  omega

/-- A full capacity-1 pool whose only frame is pinned with counter 2. -/
def pinnedFullB : ClockSweep :=
  { capacity := 1, clock_hand := 0, frames := [(2, frameAt 70 70 1)], map := [(70, 0)] }

/-- A manager over `pinnedFullB`. -/
def exhaustedMgrB : BufferPoolManager where
  disk_manager := quietDisk
  pool := pinnedFullB
  next_stamp := 400

/-- Witness for the C10 theorem at a concrete input. -/
theorem fetch_page_pool_full_quirk_witness :
    WF exhaustedMgrB.pool ∧
    mlookup exhaustedMgrB.pool.map 71 = none ∧
    exhaustedMgrB.pool.frames.length = exhaustedMgrB.pool.capacity ∧
    (∀ cf ∈ exhaustedMgrB.pool.frames, 1 ≤ cf.1 ∧ 0 < cf.2.extRefs) ∧
    exhaustedMgrB.disk_manager.readErr 71 = none ∧
    (∃ m2 m3,
      exhaustedMgrB.fetch_page 71 = some (m2,
        Except.ok (BufferFrame.new exhaustedMgrB.next_stamp 71
          (readBytes exhaustedMgrB.disk_manager 71
            exhaustedMgrB.disk_manager.page_size))) ∧
      m2.pool.map = exhaustedMgrB.pool.map ∧
      m2.pool.frames = exhaustedMgrB.pool.frames ∧
      m2.disk_manager = exhaustedMgrB.disk_manager ∧
      m2.next_stamp = exhaustedMgrB.next_stamp + 1 ∧
      m2.fetch_page 71 = some (m3,
        Except.ok (BufferFrame.new (exhaustedMgrB.next_stamp + 1) 71
          (readBytes exhaustedMgrB.disk_manager 71
            exhaustedMgrB.disk_manager.page_size))) ∧
      m3.pool.map = exhaustedMgrB.pool.map ∧
      BufferFrame.new (exhaustedMgrB.next_stamp + 1) 71
          (readBytes exhaustedMgrB.disk_manager 71
            exhaustedMgrB.disk_manager.page_size) ≠
        BufferFrame.new exhaustedMgrB.next_stamp 71
          (readBytes exhaustedMgrB.disk_manager 71
            exhaustedMgrB.disk_manager.page_size)) :=
  ⟨by decide, by decide, by decide, by decide, rfl,
    fetch_page_pool_full_quirk exhaustedMgrB 71 (by decide) (by decide)
      (by decide) (by decide) rfl⟩
